import Mathlib

/-!
Verification of the pagination, document, identity-map and fetch-orchestration
core of the jsonapi-ts client library.

Each definition below is a shallow embedding of a function or class from the
TypeScript source; the source file and symbol are named in its doc comment.
JavaScript numbers are embedded as `Nat` (all quantities involved are
non-negative integers on the verified domain), `undefined`/absent values as
`Option`, and thrown exceptions as `Except`/`Option` results.
-/

/-- Embeds `PartialDocumentPagination` (src/framework/document/index.ts).
Only the `offset` and `limit` fields are modelled; the inherited query
parameter map is derived data (`page[offset]`, and `page[limit]` only when
`limit` is truthy). `limit` is optional in the source (`limit?: number`). -/
structure PartialDocumentPagination where
  offset : Nat
  limit : Option Nat
deriving DecidableEq, Repr

/-- Embeds the helper `pagination(offset = 0, limit?)`
(src/framework/document/index.ts): construct a partial pagination. -/
def pagination (offset : Nat) (limit : Option Nat) : PartialDocumentPagination :=
  { offset := offset, limit := limit }

/-- Embeds `DocumentPagination` (src/framework/document/index.ts): a complete
pagination with known `limit` and `count`, as typed in the source
(`limit: number; count: number`). -/
structure DocumentPagination where
  offset : Nat
  limit : Nat
  count : Nat
deriving DecidableEq, Repr

/-- JavaScript `a || d` on an optional number `a`: `undefined` and `0` are
falsy, so both fall back to `d`. Used to embed `limit || this.limit` in
`DocumentPagination.advance`. -/
def jsFalsyOr (a : Option Nat) (d : Nat) : Nat :=
  match a with
  | none => d
  | some v => if v = 0 then d else v

/-- Embeds `DocumentPagination.advance(by, limit?)`
(src/framework/document/index.ts lines 324-330): return `undefined` when
`this.offset + by === this.count`, otherwise a new pagination at offset
`this.offset + by` with limit `limit || this.limit` and the same count.
The source constructs a `DocumentPagination`, so the result keeps all three
fields. -/
def DocumentPagination.advance (p : DocumentPagination) (incr : Nat)
    (limitOverride : Option Nat) : Option DocumentPagination :=
  if p.offset + incr = p.count then
    none
  else
    some { offset := p.offset + incr, limit := jsFalsyOr limitOverride p.limit, count := p.count }

/-- Embeds `pages(p, retrieved = 0)` (src/framework/document/index.ts lines
353-359):

  for (let i = 0; i < Math.ceil((p.count - retrieved) / p.limit); i++)
    ps.push(pagination(p.offset + retrieved + i * p.limit));

The loop bound `Math.ceil((count - retrieved) / limit)` is embedded, for
`limit > 0`, as the natural number `(count - retrieved + limit - 1) / limit`
(truncated subtraction): for `retrieved ≤ count` this is exactly the ceiling,
and for `retrieved > count` both the JavaScript bound (negative or zero) and
this expression give zero iterations. `limit = 0` (where the JavaScript loop
would not terminate) is outside the verified domain. Note the source passes
only the offset to `pagination`, so the generated partial paginations carry
no limit. -/
def pages (p : DocumentPagination) (retrieved : Nat) : List PartialDocumentPagination :=
  (List.range ((p.count - retrieved + p.limit - 1) / p.limit)).map
    (fun i => pagination (p.offset + retrieved + i * p.limit) none)

/-- Embeds the data/included portion of the raw JSON:API document handled by
`Document.merge` (src/schema.ts lines 239-255). `data` and `included` are
optional arrays; element types are abstract. -/
structure MergeDoc (α β : Type) where
  data : Option (List α)
  included : Option (List β)
deriving DecidableEq, Repr

/-- Embeds `Document.merge(other)` (src/schema.ts lines 239-255): if the other
document has data, either adopt it (receiver data undefined) or push it onto
the receiver's data array; same for included. All other fields of the receiver
are untouched. -/
def MergeDoc.merge (d other : MergeDoc α β) : MergeDoc α β :=
  { data :=
      match other.data with
      | none => d.data
      | some od =>
        match d.data with
        | none => some od
        | some dd => some (dd ++ od),
    included :=
      match other.included with
      | none => d.included
      | some oi =>
        match d.included with
        | none => some oi
        | some di => some (di ++ oi) }

/-- A resource as stored in the identity map: its identity pair plus an
abstract payload distinguishing different resources with the same identity. -/
structure StoredResource where
  rType : String
  id : String
  payload : Nat
deriving DecidableEq, Repr

/-- Embeds `ResourceMap` (a wrapper around `Map<string, Cache<string, …>>`,
src resource/map.ts): a two-level map from type to id to resource. The inner
`Cache` objects are created with the default expiration `NEVER`, in which case
`Cache.get` returns the stored value unconditionally, so each per-type cache
is embedded as a plain partial map. -/
def ResourceMap : Type :=
  String → Option (String → Option StoredResource)

/-- A fresh `ResourceMap`: no per-type caches exist yet. -/
def ResourceMap.empty : ResourceMap :=
  fun _ => none

/-- Embeds `ResourceMap.put(resource)`: `getOrCreateCache(resource.type)`
lazily creates the per-type cache, then `cache.set(resource.id, resource)`
overwrites whatever was stored under that id. -/
def ResourceMap.put (m : ResourceMap) (r : StoredResource) : ResourceMap :=
  fun t =>
    if t = r.rType then
      some (fun i =>
        if i = r.id then some r
        else
          match m r.rType with
          | none => none
          | some cache => cache i)
    else m t

/-- Embeds `ResourceMap.putAll(resources)`: insert resources in order. -/
def ResourceMap.putAll (m : ResourceMap) (rs : List StoredResource) : ResourceMap :=
  rs.foldl ResourceMap.put m

/-- Embeds `ResourceMap.get(reference)`: look up the per-type cache (miss if
the type has never been inserted) and then the id within it. -/
def ResourceMap.get (m : ResourceMap) (t i : String) : Option StoredResource :=
  match m t with
  | none => none
  | some cache => cache i

/-- Embeds `Reference` (src resource/reference.ts): an identity pair plus an
optional resolved in-memory resource (`resource: TResource | null`). -/
structure Reference where
  rType : String
  id : String
  resource : Option StoredResource
deriving DecidableEq, Repr

/-- Embeds the resolution step (`reference.resource =
relatedResources.get(reference)` in connectOneToMany, src relationship code):
look the reference's identity up in the map and store the result, absent on a
miss. -/
def Reference.resolve (ref : Reference) (m : ResourceMap) : Reference :=
  { ref with resource := m.get ref.rType ref.id }

/-- Embeds the wire resource `IResource` (src/schema.ts): id, type, optional
view discriminator; attributes and relationships are abstracted into an
opaque payload. -/
structure IResourceW where
  id : String
  rType : String
  view : Option String
  payload : Nat
deriving DecidableEq, Repr

/-- Embeds `ModelRegistryEntry` (src model/registry.ts, view-aware variant):
an optional type-level factory and an optional per-view factory table. -/
structure ModelRegistryEntry (μ : Type) where
  factory : Option (IResourceW → μ)
  factoryByView : Option (String → Option (IResourceW → μ))

/-- Embeds `ModelRegistry` (src model/registry.ts): a map from resource type
to registry entry, over an abstract model type. -/
structure ModelRegistry (μ : Type) where
  registered : String → Option (ModelRegistryEntry μ)

/-- A registry with nothing registered. -/
def ModelRegistry.empty (μ : Type) : ModelRegistry μ :=
  { registered := fun _ => none }

/-- Embeds `ModelRegistry.get(resource)`: when the wire element carries a
view discriminator, only the per-view table is consulted (no fallback to the
type-level factory); otherwise the type-level factory is returned. -/
def ModelRegistry.get (reg : ModelRegistry μ) (r : IResourceW) : Option (IResourceW → μ) :=
  match r.view with
  | some v =>
    match reg.registered r.rType with
    | none => none
    | some entry =>
      match entry.factoryByView with
      | none => none
      | some table => table v
  | none =>
    match reg.registered r.rType with
    | none => none
    | some entry => entry.factory

/-- Embeds `ModelRegistry.wrap(resource)`: `throw new Error(...)` when no
factory is bound, otherwise apply the factory's read function. -/
def ModelRegistry.wrap (reg : ModelRegistry μ) (r : IResourceW) : Except String μ :=
  match reg.get r with
  | none => Except.error ("no factory for type " ++ r.rType)
  | some f => Except.ok (f r)

/-- Embeds `ModelRegistry.wrapAll(resources)` = `resources.map(wrap)`: the
first thrown error aborts the whole map; no partial list escapes. -/
def ModelRegistry.wrapAll (reg : ModelRegistry μ) : List IResourceW → Except String (List μ)
  | [] => Except.ok []
  | r :: rs =>
    match reg.wrap r with
    | Except.error e => Except.error e
    | Except.ok m =>
      match ModelRegistry.wrapAll reg rs with
      | Except.error e => Except.error e
      | Except.ok ms => Except.ok (m :: ms)

/-- Embeds the raw Many-document consumed by `ReadManyDocument.wrap` and
`ReadManyDocument.combine` (src/framework/document/index.ts): optional data
and included arrays, plus the errors array (other metadata fields do not
affect the verified claims and are omitted). Error payloads are opaque
strings. -/
structure IDocumentMany where
  data : Option (List IResourceW)
  included : Option (List IResourceW)
  errors : Option (List String)
deriving DecidableEq, Repr

/-- The wrapped Many-document produced by `ReadManyDocument.wrap`. -/
structure WrappedMany (μ : Type) where
  data : Option (List μ)
  included : Option (List μ)
  errors : Option (List String)

/-- Embeds `ReadManyDocument.wrap(data, modelFactory)` together with
`Document.bind` (src/framework/document/index.ts lines 36-44, 153-163):
`included` (when present) is dispatched through the global registry and a
miss is fatal for the whole call; `data` is mapped with the caller-supplied
model factory's read function and never consults the registry. -/
def wrapManyDocument (reg : ModelRegistry μ) (read : IResourceW → μ)
    (d : IDocumentMany) : Except String (WrappedMany μ) :=
  match d.included with
  | none =>
    Except.ok { data := d.data.map (List.map read), included := none, errors := d.errors }
  | some rs =>
    match reg.wrapAll rs with
    | Except.error e => Except.error e
    | Except.ok ms =>
      Except.ok { data := d.data.map (List.map read), included := some ms, errors := d.errors }

/-- Embeds the raw One-document consumed by `OneReadDocument.wrap`. -/
structure IDocumentOne where
  data : Option IResourceW
  included : Option (List IResourceW)
  errors : Option (List String)
deriving DecidableEq, Repr

/-- The wrapped One-document produced by `OneReadDocument.wrap`. -/
structure WrappedOne (μ : Type) where
  data : Option μ
  included : Option (List μ)
  errors : Option (List String)

/-- Embeds `OneReadDocument.wrap(data, modelFactory)` plus `Document.bind`:
included through the registry (fatal miss), data through the caller-supplied
factory. -/
def wrapOneDocument (reg : ModelRegistry μ) (read : IResourceW → μ)
    (d : IDocumentOne) : Except String (WrappedOne μ) :=
  match d.included with
  | none =>
    Except.ok { data := d.data.map read, included := none, errors := d.errors }
  | some rs =>
    match reg.wrapAll rs with
    | Except.error e => Except.error e
    | Except.ok ms =>
      Except.ok { data := d.data.map read, included := some ms, errors := d.errors }

/-- Embeds `IDocumentResponse` (src/framework/broker.ts): a status code and
the parsed response document. -/
structure DocumentResponse where
  status : Nat
  document : IDocumentOne
deriving DecidableEq, Repr

/-- Embeds `status(expected)` (src/framework/default/convenience.ts lines
19-28): on a status mismatch the promise is rejected with
`response.document.errors` — unconditionally, whether or not that field is
present (`logErrors`/`console.warn` only log); on a match it resolves with
the document. -/
def statusFilter (expected : Nat) (resp : DocumentResponse) :
    Except (Option (List String)) IDocumentOne :=
  if resp.status ≠ expected then Except.error resp.document.errors
  else Except.ok resp.document

/-- The observable failure of a request orchestration: a promise rejection
carrying the (optional) errors array, or a wrap exception. -/
inductive OrchestrationFailure where
  | rejected (errors : Option (List String))
  | wrapFailure (msg : String)
deriving DecidableEq, Repr

/-- Embeds the response half of the request orchestrations in
src/framework/api.ts (`…send().then(status(expected)).then(wrap)`): the
status filter runs first and its rejection propagates; then the document is
wrapped, a wrap exception also rejecting the orchestration. -/
def requestPipeline (reg : ModelRegistry μ) (read : IResourceW → μ)
    (expected : Nat) (resp : DocumentResponse) :
    Except OrchestrationFailure (WrappedOne μ) :=
  match statusFilter expected resp with
  | Except.error es => Except.error (OrchestrationFailure.rejected es)
  | Except.ok d =>
    match wrapOneDocument reg read d with
    | Except.error e => Except.error (OrchestrationFailure.wrapFailure e)
    | Except.ok w => Except.ok w

/-- Embeds `JsonApi.update` (src/framework/api.ts lines 187-200): the PATCH
response is piped through `status(201)` — and only 201 — before wrapping. -/
def updatePipeline (reg : ModelRegistry μ) (read : IResourceW → μ)
    (resp : DocumentResponse) : Except OrchestrationFailure (WrappedOne μ) :=
  requestPipeline reg read 201 resp

/-- Embeds one iteration of the loop in `ReadManyDocument.combine`
(src/framework/document/index.ts lines 180-184): `combined.data!.push(
...other.data!)` throws (None) when either data array is absent;
`combined.included?.push(...(other.included ?? []))` is a no-op when the
accumulator has no included array and tolerates an absent one on `other`. -/
def combineStep (c other : IDocumentMany) : Option IDocumentMany :=
  match c.data, other.data with
  | some cd, some od =>
    some { data := some (cd ++ od),
           included :=
             match c.included with
             | none => none
             | some ci => some (ci ++ other.included.getD []),
           errors := c.errors }
  | _, _ => none

/-- Embeds the mutating prologue of `ReadManyDocument.combine`
(src/framework/document/index.ts lines 173-189): `data.shift()!` removes and
returns the first raw document (throwing on an empty array), and the loop
folds every remaining document into it. The returned pair is the final state
of (mutated first document, input array after the shift). -/
def combineShift : List IDocumentMany → Option (IDocumentMany × List IDocumentMany)
  | [] => none
  | d :: rest =>
    match rest.foldlM combineStep d with
    | none => none
    | some c => some (c, rest)

/-- Embeds the batch orchestrator `JsonApi.getAll` (src/framework/api.ts
lines 61-79) against a consistent paginated server. Every follow-up request
issued by either orchestrator carries only a `page[offset]` parameter (the
`pages` helper passes no limit, and the `DocumentPagination` constructor sets
only the offset parameter), so the server is modelled as a function from the
requested offset to that page's data array; every response's
`meta.pagination` reports the requested offset together with the server's
fixed page limit `L` and total count `C` (the first request is
`pagination()`, offset 0). After the first page, getAll resolves immediately
when the pagination window already covers the count, and otherwise requests
all pages from `pages` and merges their data in enumeration order (the merge
step is `Document.merge`, whose data concatenation is proved separately). -/
def batchData (L C : Nat) (srv : Nat → List α) : List α :=
  let d0 := srv 0
  if (0 : Nat) = C then d0
  else d0 ++ ((pages ⟨0, L, C⟩ d0.length).map (fun np => srv np.offset)).flatten

/-- Embeds `JsonApi.getRestIncremental` (src/framework/api.ts lines 151-170):
fetch page at the given offset, surface it as a step, read the page's own
pagination from its meta (offset, L, C), advance by the page's length, and
either finish or recurse. The source recurses through promise callbacks
without a bound; the `fuel` argument is a termination device only — the
theorems about this function supply enough fuel that it is never exhausted,
so it computes the same step sequence as the unbounded recursion. -/
def incrementalRest (L C : Nat) (srv : Nat → List α) : Nat → Nat → List (List α)
  | 0, _ => []
  | fuel + 1, o =>
    let page := srv o
    match (⟨o, L, C⟩ : DocumentPagination).advance page.length none with
    | none => [page]
    | some np => page :: incrementalRest L C srv fuel np.offset

/-- Embeds the incremental orchestrator `JsonApi.getAllIncremental`
(src/framework/api.ts lines 94-111) against the same server model as
`batchData`: the list of data arrays delivered through the step notification,
in delivery order. -/
def incrementalSteps (L C : Nat) (srv : Nat → List α) : List (List α) :=
  let d0 := srv 0
  match (⟨0, L, C⟩ : DocumentPagination).advance d0.length none with
  | none => [d0]
  | some np => d0 :: incrementalRest L C srv (C + 1) np.offset

/-- The JavaScript TypeError raised when pagination construction touches a
missing field. -/
inductive JsError where
  | typeError
deriving DecidableEq, Repr

/-- The three numeric fields of a wire `meta.pagination` object, each
possibly missing. -/
structure PagFields where
  offset : Option Nat
  limit : Option Nat
  count : Option Nat
deriving DecidableEq, Repr

/-- The value found under the `pagination` key of a meta object: an object
carrying the (possibly missing) fields, or a non-object value. -/
inductive PagValue where
  | obj (fields : PagFields)
  | nonObject
deriving DecidableEq, Repr

/-- A wire `meta` value: an object with an optional `pagination` member, or
a non-object value (an absent meta is `Option.none` at the use site). -/
inductive MetaValue where
  | obj (pagination : Option PagValue)
  | nonObject
deriving DecidableEq, Repr

/-- A pagination as constructed by `fromMeta` from a structurally
unvalidated pagination object: the offset is a number (construction crashes
otherwise, see `fromMetaDyn`), while limit and count may be `undefined`. -/
structure DynPagination where
  offset : Nat
  limit : Option Nat
  count : Option Nat
deriving DecidableEq, Repr

/-- Embeds `DocumentPagination.fromMeta(meta)` (src/framework/document/
index.ts lines 308-314) under dynamic JavaScript semantics: a non-object
meta, a missing `pagination` member, or a non-object `pagination` value
yield `undefined`; otherwise `new DocumentPagination(p.offset, p.limit,
p.count)` runs, whose inherited constructor executes `this.page('offset',
this.offset)` — `value.toString()` throws a TypeError when the offset field
is missing (unlike the limit, which is guarded by `if (this.limit)`). -/
def fromMetaDyn (meta : Option MetaValue) : Except JsError (Option DynPagination) :=
  match meta with
  | none => Except.ok none
  | some MetaValue.nonObject => Except.ok none
  | some (MetaValue.obj pag) =>
    match pag with
    | none => Except.ok none
    | some PagValue.nonObject => Except.ok none
    | some (PagValue.obj f) =>
      match f.offset with
      | none => Except.error JsError.typeError
      | some o => Except.ok (some ⟨o, f.limit, f.count⟩)

/-- Embeds `pages` applied to a dynamically constructed pagination whose
limit or count may be missing: `Math.ceil((count - retrieved) / limit)` is
`NaN` when either is `undefined`, so the loop never runs; with both present
the typed embedding applies. -/
def pagesDyn (p : DynPagination) (retrieved : Nat) : List PartialDocumentPagination :=
  match p.count, p.limit with
  | some c, some l => pages ⟨p.offset, l, c⟩ retrieved
  | _, _ => []

/-- JavaScript strict equality between the numeric offset and the possibly
missing count: a number is never `===` to `undefined`. -/
def jsEqNum (o : Nat) (c : Option Nat) : Bool :=
  match c with
  | none => false
  | some c' => o == c'

/-- Embeds the first-page decision logic of `JsonApi.getAll`
(src/framework/api.ts lines 66-79) applied to a first page with the given
data and meta: read the pagination from the meta (a construction crash
rejects the whole orchestration), resolve with the single page when the
pagination is `undefined` or `p.offset === p.count`, and otherwise request
every remaining page and merge the data in enumeration order. -/
def getAllFromFirst (srv : Nat → List α) (data0 : List α)
    (meta : Option MetaValue) : Except JsError (List α) :=
  match fromMetaDyn meta with
  | Except.error e => Except.error e
  | Except.ok none => Except.ok data0
  | Except.ok (some p) =>
    if jsEqNum p.offset p.count then Except.ok data0
    else Except.ok (data0 ++ ((pagesDyn p data0.length).map (fun np => srv np.offset)).flatten)

/-- The meta shapes for which `fromMeta`'s own structural guard reports "no
pagination": absent meta, non-object meta, missing `pagination` member, or a
non-object `pagination` value. -/
def paginationAbsent (meta : Option MetaValue) : Bool :=
  match meta with
  | none => true
  | some MetaValue.nonObject => true
  | some (MetaValue.obj none) => true
  | some (MetaValue.obj (some PagValue.nonObject)) => true
  | some (MetaValue.obj (some (PagValue.obj _))) => false

/-- A sample wire resource of type "users" for concrete test inputs. -/
def userResource : IResourceW :=
  ⟨"1", "users", none, 0⟩

/-- A second sample wire resource of type "users". -/
def userResource2 : IResourceW :=
  ⟨"2", "users", none, 2⟩

/-- A sample wire resource of type "pets". -/
def petResource : IResourceW :=
  ⟨"9", "pets", none, 1⟩

/-- C1. The remaining-page generator `pages` returns exactly
ceil((count - retrieved) / limit) partial paginations, characterized by
`count - retrieved ≤ n * limit < count - retrieved + limit`; the i-th one has
offset `offset + retrieved + i * limit`; and (as the counterexample forces)
each generated partial pagination carries no limit at all, rather than the
input pagination's limit. `count = 0` (indeed any `retrieved ≥ count`) yields
an empty list. -/
theorem pages_spec (offset limit count retrieved : Nat)
    (hl : 0 < limit) (ho : offset ≤ count) :
    (retrieved ≤ count →
      count - retrieved ≤ (pages ⟨offset, limit, count⟩ retrieved).length * limit ∧
      (pages ⟨offset, limit, count⟩ retrieved).length * limit < count - retrieved + limit) ∧
    (count ≤ retrieved → pages ⟨offset, limit, count⟩ retrieved = []) ∧
    (∀ i (h : i < (pages ⟨offset, limit, count⟩ retrieved).length),
      (pages ⟨offset, limit, count⟩ retrieved).get ⟨i, h⟩ =
        { offset := offset + retrieved + i * limit, limit := none }) := by
  refine ⟨?_, ?_, ?_⟩
  · intro hr
    simp only [pages, List.length_map, List.length_range]
    obtain ⟨q, hq⟩ : ∃ q, (count - retrieved + limit - 1) / limit = q := ⟨_, rfl⟩
    obtain ⟨r, hrr⟩ : ∃ r, (count - retrieved + limit - 1) % limit = r := ⟨_, rfl⟩
    have h1 : limit * q + r = count - retrieved + limit - 1 := by
      rw [← hq, ← hrr]
      exact Nat.div_add_mod _ _
    have h2 : r < limit := by
      rw [← hrr]
      exact Nat.mod_lt _ hl
    rw [hq]
    obtain ⟨t, ht⟩ : ∃ t, q * limit = t := ⟨_, rfl⟩
    rw [ht]
    rw [Nat.mul_comm limit q, ht] at h1
    omega
  · intro hr
    have hz : (count - retrieved + limit - 1) / limit = 0 := by
      apply Nat.div_eq_of_lt
      omega
    simp [pages, hz]
  · intro i h
    simp only [pages, List.get_eq_getElem, List.getElem_map, List.getElem_range, pagination]

/-- Witness for C1 at the spec scenario (offset 0, limit 2, count 5,
retrieved 2): the generated page count satisfies the ceiling bounds. -/
theorem pages_spec_witness :
    5 - 2 ≤ (pages ⟨0, 2, 5⟩ 2).length * 2 ∧
    (pages ⟨0, 2, 5⟩ 2).length * 2 < 5 - 2 + 2 :=
  (pages_spec 0 2 5 2 (by decide) (by decide)).1 (by decide)

/-- Counterexample for C1: at the spec's own scenario (first page of
`{offset:0, limit:2, count:5}` returning 2 items), the two generated partial
paginations carry no limit, not the input's limit 2 as the claim states. -/
theorem pages_limit_counterexample :
    (pages ⟨0, 2, 5⟩ 2).map PartialDocumentPagination.limit = [none, none] ∧
    (pages ⟨0, 2, 5⟩ 2).map PartialDocumentPagination.limit ≠ [some 2, some 2] := by
  constructor
  · rfl
  · decide

/-- C2. `advance(by, limitOverride?)` signals "no next page" (returns
`undefined`) exactly when `offset + by = count`; otherwise it returns a
pagination at offset `offset + by` whose limit is the override when one is
given (a positive limit, per the data model) and the current limit otherwise. -/
theorem advance_spec (p : DocumentPagination) (incr : Nat) (lo : Option Nat)
    (hlo : ∀ l, lo = some l → 0 < l) :
    (p.advance incr lo = none ↔ p.offset + incr = p.count) ∧
    (∀ q, p.advance incr lo = some q →
      q.offset = p.offset + incr ∧ q.limit = lo.getD p.limit) := by
  constructor
  · constructor
    · intro h
      by_contra hne
      simp [DocumentPagination.advance, hne] at h
    · intro h
      simp [DocumentPagination.advance, h]
  · intro q hq
    by_cases he : p.offset + incr = p.count
    · simp [DocumentPagination.advance, he] at hq
    · simp only [DocumentPagination.advance, he, if_neg, ite_false, Option.some.injEq] at hq
      subst hq
      refine ⟨rfl, ?_⟩
      cases lo with
      | none => rfl
      | some l =>
        have hpos := hlo l rfl
        simp [jsFalsyOr, Nat.pos_iff_ne_zero.mp hpos]

/-- Witness for C2 at a concrete pagination (offset 2, limit 2, count 5),
advancing by 1 with override limit 3: the advanced page starts at 3 with the
override limit. -/
theorem advance_spec_witness :
    (DocumentPagination.mk 3 3 5).offset = 2 + 1 ∧
    (DocumentPagination.mk 3 3 5).limit = (some 3).getD 2 :=
  (advance_spec ⟨2, 2, 5⟩ 1 (some 3) (by intro l hl; cases hl; decide)).2 ⟨3, 3, 5⟩ rfl

/-- C4. Merging another Many-document into a receiver concatenates the data
arrays in order and the included arrays in order, with no deduplication:
absent arrays behave as empty on either side, and when both sides are present
the result is exactly receiver followed by other. -/
theorem merge_concat {α β : Type} (d other : MergeDoc α β) :
    ((d.merge other).data).getD [] = d.data.getD [] ++ other.data.getD [] ∧
    ((d.merge other).included).getD [] = d.included.getD [] ++ other.included.getD [] ∧
    (∀ dd od, d.data = some dd → other.data = some od →
      (d.merge other).data = some (dd ++ od)) ∧
    (∀ di oi, d.included = some di → other.included = some oi →
      (d.merge other).included = some (di ++ oi)) := by
  obtain ⟨dd, di⟩ := d
  obtain ⟨od, oi⟩ := other
  cases dd <;> cases od <;> cases di <;> cases oi <;>
    simp [MergeDoc.merge]

/-- Witness for C4 with concrete documents: data [1] ++ [2], duplicated
included elements preserved verbatim. -/
theorem merge_concat_witness :
    ((MergeDoc.merge ⟨some [1], some [7, 7]⟩ ⟨some [2], some [7]⟩).data).getD [] =
        (some [1]).getD [] ++ (some [2]).getD [] ∧
    ((MergeDoc.merge ⟨some [1], some [7, 7]⟩ ⟨some [2], some [7]⟩).included).getD [] =
        (some [7, 7]).getD [] ++ (some [7]).getD [] ∧
    (MergeDoc.merge (⟨some [1], some [7, 7]⟩ : MergeDoc Nat Nat) ⟨some [2], some [7]⟩).data
        = some ([1] ++ [2]) ∧
    (MergeDoc.merge (⟨some [1], some [7, 7]⟩ : MergeDoc Nat Nat) ⟨some [2], some [7]⟩).included
        = some ([7, 7] ++ [7]) := by
  have h := merge_concat (⟨some [1], some [7, 7]⟩ : MergeDoc Nat Nat) ⟨some [2], some [7]⟩
  exact ⟨h.1, h.2.1, h.2.2.1 [1] [2] rfl rfl, h.2.2.2 [7, 7] [7] rfl rfl⟩

/-- Helper: find? distributes over append, first list wins. -/
theorem find?_append_cases {α : Type} (p : α → Bool) (l₁ l₂ : List α) :
    (l₁ ++ l₂).find? p =
      match l₁.find? p with
      | some x => some x
      | none => l₂.find? p := by
  induction l₁ with
  | nil => simp
  | cons a l ih =>
    by_cases h : p a <;> simp [List.find?_cons, h, ih]

/-- Helper: a single put is observed by get exactly on the matching identity,
all other lookups fall through to the previous map. -/
theorem get_put {m : ResourceMap} {r : StoredResource} (t i : String) :
    ResourceMap.get (m.put r) t i =
      if r.rType == t && r.id == i then some r else m.get t i := by
  by_cases ht : t = r.rType
  · subst ht
    by_cases hi : i = r.id
    · subst hi
      simp [ResourceMap.get, ResourceMap.put]
    · have hii : r.id ≠ i := by
        intro h
        exact hi h.symm
      have hb : (r.id == i) = false := beq_eq_false_iff_ne.mpr hii
      simp [ResourceMap.get, ResourceMap.put, hi, hb]
  · have htt : r.rType ≠ t := by
      intro h
      exact ht h.symm
    have hb : (r.rType == t) = false := beq_eq_false_iff_ne.mpr htt
    simp [ResourceMap.get, ResourceMap.put, ht, hb]

/-- Helper: get after a sequence of puts returns the most recently inserted
match, falling back to the initial map. -/
theorem get_putAll_aux (rs : List StoredResource) (m : ResourceMap) (t i : String) :
    ResourceMap.get (m.putAll rs) t i =
      match rs.reverse.find? (fun r => r.rType == t && r.id == i) with
      | some r => some r
      | none => m.get t i := by
  induction rs generalizing m with
  | nil => simp [ResourceMap.putAll]
  | cons r rs ih =>
    have hfold : ResourceMap.putAll m (r :: rs) = ResourceMap.putAll (m.put r) rs := by
      simp [ResourceMap.putAll]
    rw [hfold, ih, List.reverse_cons, find?_append_cases]
    cases hf : rs.reverse.find? (fun r => r.rType == t && r.id == i) with
    | some x => rfl
    | none =>
      simp only [List.find?_singleton]
      rw [get_put]
      by_cases hp : (r.rType == t && r.id == i) = true <;> simp [hp]

/-- C5. Looking a (type, id) identity up in a ResourceMap built by a sequence
of puts returns the most recently put resource with that identity
(last-write-wins), and absent when none was put; resolving a Reference
against the map stores exactly that result, so a miss leaves the Reference
unresolved and raises no error. -/
theorem resourceMap_last_write_wins (rs : List StoredResource) (t i : String) :
    ResourceMap.get (ResourceMap.empty.putAll rs) t i =
      rs.reverse.find? (fun r => r.rType == t && r.id == i) ∧
    (∀ ref : Reference,
      (ref.resolve (ResourceMap.empty.putAll rs)).resource =
        rs.reverse.find? (fun r => r.rType == ref.rType && r.id == ref.id)) := by
  have hbase : ∀ t' i', ResourceMap.get ResourceMap.empty t' i' = none := by
    intro t' i'
    rfl
  constructor
  · rw [get_putAll_aux, hbase]
    cases rs.reverse.find? (fun r => r.rType == t && r.id == i) <;> rfl
  · intro ref
    show ResourceMap.get (ResourceMap.empty.putAll rs) ref.rType ref.id = _
    rw [get_putAll_aux, hbase]
    cases rs.reverse.find? (fun r => r.rType == ref.rType && r.id == ref.id) <;> rfl

/-- Helper: wrapAll aborts with an error as soon as some element has no
bound factory. -/
theorem wrapAll_miss {μ : Type} (reg : ModelRegistry μ) (rs : List IResourceW)
    (h : ∃ r ∈ rs, (reg.get r).isNone = true) :
    ∃ e, reg.wrapAll rs = Except.error e := by
  induction rs with
  | nil => simp at h
  | cons a rs ih =>
    obtain ⟨r, hr, hn⟩ := h
    rcases List.mem_cons.mp hr with heq | hmem
    · subst heq
      have hg : reg.get r = none := Option.isNone_iff_eq_none.mp hn
      exact ⟨"no factory for type " ++ r.rType,
        by simp [ModelRegistry.wrapAll, ModelRegistry.wrap, hg]⟩
    · cases hw : reg.wrap a with
      | error e => exact ⟨e, by simp [ModelRegistry.wrapAll, hw]⟩
      | ok m =>
        obtain ⟨e, he⟩ := ih ⟨r, hmem, hn⟩
        exact ⟨e, by simp [ModelRegistry.wrapAll, hw, he]⟩

/-- Helper: a successful wrapAll converts every element, preserving length. -/
theorem wrapAll_length {μ : Type} (reg : ModelRegistry μ) (rs : List IResourceW)
    (ms : List μ) (h : reg.wrapAll rs = Except.ok ms) : ms.length = rs.length := by
  induction rs generalizing ms with
  | nil =>
    simp [ModelRegistry.wrapAll] at h
    simp [h]
  | cons a rs ih =>
    cases hw : reg.wrap a with
    | error e =>
      simp [ModelRegistry.wrapAll, hw] at h
    | ok m =>
      cases hall : ModelRegistry.wrapAll reg rs with
      | error e => simp [ModelRegistry.wrapAll, hw, hall] at h
      | ok ms' =>
        simp [ModelRegistry.wrapAll, hw, hall] at h
        simp [← h, ih ms' hall]

/-- C7 (amended). Wrapping a raw Many-document dispatches only the
`included` elements through the Model Registry: a registry miss for any
included element is fatal (the whole wrap errors, no partial document), and
on success every data and included element is converted (lengths preserved,
nothing silently skipped). Data elements are converted by the caller-supplied
model factory and never consult the registry. -/
theorem wrap_registry_dispatch (μ : Type) (reg : ModelRegistry μ)
    (read : IResourceW → μ) (d : IDocumentMany) :
    ((∃ r ∈ d.included.getD [], (reg.get r).isNone = true) →
      (wrapManyDocument reg read d).isOk = false) ∧
    (∀ w, wrapManyDocument reg read d = Except.ok w →
      w.included.map List.length = d.included.map List.length ∧
      w.data.map List.length = d.data.map List.length) := by
  constructor
  · intro h
    cases hi : d.included with
    | none => rw [hi] at h; simp at h
    | some rs =>
      rw [hi] at h
      obtain ⟨e, he⟩ := wrapAll_miss reg rs (by simpa using h)
      simp [wrapManyDocument, hi, he, Except.isOk, Except.toBool]
  · intro w hw
    cases hi : d.included with
    | none =>
      simp [wrapManyDocument, hi] at hw
      constructor
      · simp [← hw, hi]
      · cases hd : d.data <;> simp [← hw, hd]
    | some rs =>
      cases hall : reg.wrapAll rs with
      | error e => simp [wrapManyDocument, hi, hall] at hw
      | ok ms =>
        simp [wrapManyDocument, hi, hall] at hw
        constructor
        · simp [← hw, hi, wrapAll_length reg rs ms hall]
        · cases hd : d.data <;> simp [← hw, hd]

/-- Witness for C7 at a concrete document whose single included element has
an unregistered type: the wrap does not produce a document. -/
theorem wrap_registry_dispatch_witness :
    (wrapManyDocument (ModelRegistry.empty IResourceW) (fun r => r)
      ⟨none, some [userResource], none⟩).isOk = false :=
  (wrap_registry_dispatch IResourceW (ModelRegistry.empty IResourceW) (fun r => r)
    ⟨none, some [userResource], none⟩).1 (by decide)

/-- Counterexample for C7 as stated: a document whose `data` contains a
resource of a type with no bound factory in the registry (here: an empty
registry) is wrapped successfully — data elements go through the
caller-supplied factory, so no fatal failure occurs and a full document is
returned, contradicting the claim for data elements. -/
theorem wrap_unregistered_data_counterexample :
    ((ModelRegistry.empty IResourceW).get userResource).isNone = true ∧
    wrapManyDocument (ModelRegistry.empty IResourceW) (fun r => r)
        ⟨some [userResource], none, none⟩ =
      Except.ok ⟨some [userResource], none, none⟩ :=
  ⟨rfl, rfl⟩

/-- C6 (amended). On any status mismatch the orchestration rejects with the
response document's errors field — when errors are present the rejection
carries exactly those errors; when absent the rejection payload is the absent
errors value, not a generic status-mismatch failure. -/
theorem status_mismatch_rejects_errors_field (μ : Type) (reg : ModelRegistry μ)
    (read : IResourceW → μ) (expected : Nat) (resp : DocumentResponse)
    (h : resp.status ≠ expected) :
    requestPipeline reg read expected resp =
      Except.error (OrchestrationFailure.rejected resp.document.errors) := by
  simp [requestPipeline, statusFilter, h]

/-- Witness for C6 at the spec scenario: a 404 response with a non-empty
errors array, against expected status 200, rejects with those errors. -/
theorem status_mismatch_rejects_errors_field_witness :
    requestPipeline (ModelRegistry.empty IResourceW) (fun r => r) 200
        ⟨404, ⟨none, none, some ["not found"]⟩⟩ =
      Except.error (OrchestrationFailure.rejected (some ["not found"])) :=
  status_mismatch_rejects_errors_field IResourceW (ModelRegistry.empty IResourceW)
    (fun r => r) 200 ⟨404, ⟨none, none, some ["not found"]⟩⟩ (by decide)

/-- Counterexample for C6 as stated: when the errors array is absent, the
rejection payload is just that absent errors value — indistinguishable
between a 404 and a 500 and carrying no status information — rather than a
generic status-mismatch failure. -/
theorem status_reject_payload_counterexample :
    requestPipeline (ModelRegistry.empty IResourceW) (fun r => r) 200
        ⟨404, ⟨none, none, none⟩⟩ =
      Except.error (OrchestrationFailure.rejected none) ∧
    requestPipeline (ModelRegistry.empty IResourceW) (fun r => r) 200
        ⟨500, ⟨none, none, none⟩⟩ =
      Except.error (OrchestrationFailure.rejected none) :=
  ⟨rfl, rfl⟩

/-- C9 (amended). The update orchestration treats exactly status 201 as
success (the document is wrapped and returned); any other status — including
200 — is treated as an error response and rejects with the document's errors
field. -/
theorem update_success_only_201 (μ : Type) (reg : ModelRegistry μ)
    (read : IResourceW → μ) (resp : DocumentResponse) :
    (resp.status ≠ 201 → updatePipeline reg read resp =
      Except.error (OrchestrationFailure.rejected resp.document.errors)) ∧
    (resp.status = 201 → updatePipeline reg read resp =
      (wrapOneDocument reg read resp.document).mapError OrchestrationFailure.wrapFailure) := by
  constructor
  · intro h
    simp [updatePipeline, requestPipeline, statusFilter, h]
  · intro h
    simp only [updatePipeline, requestPipeline, statusFilter, h]
    cases hw : wrapOneDocument reg read resp.document <;> simp [Except.mapError, hw]

/-- Witness for C9 at a concrete 201 update response: the document is wrapped
and returned. -/
theorem update_success_only_201_witness :
    updatePipeline (ModelRegistry.empty IResourceW) (fun r => r)
        ⟨201, ⟨some userResource, none, none⟩⟩ =
      (wrapOneDocument (ModelRegistry.empty IResourceW) (fun r => r)
        ⟨some userResource, none, none⟩).mapError OrchestrationFailure.wrapFailure :=
  (update_success_only_201 IResourceW (ModelRegistry.empty IResourceW) (fun r => r)
    ⟨201, ⟨some userResource, none, none⟩⟩).2 rfl

/-- Counterexample for C9 as stated: an update response with status 200 is
rejected, not treated as success. -/
theorem update_200_rejected_counterexample :
    updatePipeline (ModelRegistry.empty IResourceW) (fun r => r)
        ⟨200, ⟨some userResource, none, none⟩⟩ =
      Except.error (OrchestrationFailure.rejected none) := by
  simp [updatePipeline, requestPipeline, statusFilter]

/-- Helper: folding combineStep over the remaining documents appends all
their data (and, when the accumulator has an included array, all their
included) elements in order. -/
theorem combine_fold (rest : List IDocumentMany) :
    ∀ (c : IDocumentMany) (cd : List IResourceW), c.data = some cd →
    (∀ x ∈ rest, x.data.isSome = true) →
    rest.foldlM combineStep c = some
      ⟨some (cd ++ (rest.map (fun o => o.data.getD [])).flatten),
       c.included.map
         (fun ci => ci ++ (rest.map (fun o => o.included.getD [])).flatten),
       c.errors⟩ := by
  induction rest with
  | nil =>
    intro c cd hcd _
    obtain ⟨d, i, e⟩ := c
    simp at hcd
    cases i <;> simp [List.foldlM, hcd]
  | cons o rest ih =>
    intro c cd hcd h
    obtain ⟨od, hod⟩ : ∃ od, o.data = some od :=
      Option.isSome_iff_exists.mp (h o (by simp))
    have hstep : combineStep c o = some
        ⟨some (cd ++ od),
         match c.included with
         | none => none
         | some ci => some (ci ++ o.included.getD []),
         c.errors⟩ := by
      simp [combineStep, hcd, hod]
    rw [List.foldlM_cons, hstep]
    show List.foldlM combineStep _ rest = _
    rw [ih _ (cd ++ od) rfl (fun x hx => h x (List.mem_cons_of_mem _ hx))]
    cases hi : c.included <;> simp [hod, hi, List.append_assoc]

/-- C10. ReadManyDocument.combine on a non-empty array of raw Many-documents,
each carrying a data array, mutates its inputs: the first document is
removed from the input array, and every later document's data elements (and
included elements, when the first document has an included array) are
appended in order onto the first document's arrays. The result pair is the
final state (mutated first document, remaining input array). -/
theorem combine_mutates_inputs (d : IDocumentMany) (rest : List IDocumentMany)
    (hd : ∀ x ∈ d :: rest, x.data.isSome = true) :
    combineShift (d :: rest) = some
      (⟨some (d.data.getD [] ++ (rest.map (fun o => o.data.getD [])).flatten),
        d.included.map
          (fun ci => ci ++ (rest.map (fun o => o.included.getD [])).flatten),
        d.errors⟩,
       rest) := by
  obtain ⟨dd, hdd⟩ : ∃ dd, d.data = some dd :=
    Option.isSome_iff_exists.mp (hd d (by simp))
  simp only [combineShift]
  rw [combine_fold rest d dd hdd (fun x hx => hd x (List.mem_cons_of_mem _ hx))]
  simp [hdd]

/-- Witness for C10 at concrete documents: the first document (with an
included array) absorbs the later one and the array loses its head. -/
theorem combine_mutates_inputs_witness :
    combineShift
        [⟨some [userResource], some [petResource], some ["w"]⟩,
         ⟨some [userResource2], none, none⟩] = some
      (⟨some ((some [userResource]).getD [] ++
          (([⟨some [userResource2], none, none⟩] : List IDocumentMany).map
            (fun o => o.data.getD [])).flatten),
        (some [petResource]).map
          (fun ci => ci ++
            (([⟨some [userResource2], none, none⟩] : List IDocumentMany).map
              (fun o => o.included.getD [])).flatten),
        some ["w"]⟩,
       [⟨some [userResource2], none, none⟩]) :=
  combine_mutates_inputs ⟨some [userResource], some [petResource], some ["w"]⟩
    [⟨some [userResource2], none, none⟩] (by decide)

/-- C8 (amended). A first page whose `meta.pagination` is absent or not an
object (including a non-object meta and a missing `pagination` member) is
treated as "no further pages": the fetch terminates successfully with the
single page. A structurally invalid pagination object is not validated
field-by-field, however: one carrying an offset but no count also terminates
with the single page (zero further pages are computed), while one missing
its offset makes the fetch fail (see the counterexample). -/
theorem malformed_meta_single_page (α : Type) (srv : Nat → List α)
    (data0 : List α) (meta : Option MetaValue)
    (h : paginationAbsent meta = true) :
    getAllFromFirst srv data0 meta = Except.ok data0 ∧
    (∀ o l, getAllFromFirst srv data0
        (some (MetaValue.obj (some (PagValue.obj ⟨some o, l, none⟩)))) =
      Except.ok data0) := by
  constructor
  · match meta with
    | none => rfl
    | some MetaValue.nonObject => rfl
    | some (MetaValue.obj none) => rfl
    | some (MetaValue.obj (some PagValue.nonObject)) => rfl
    | some (MetaValue.obj (some (PagValue.obj f))) => simp [paginationAbsent] at h
  · intro o l
    simp [getAllFromFirst, fromMetaDyn, jsEqNum, pagesDyn]

/-- Witness for C8: a non-object meta on the first page resolves with just
that page's data. -/
theorem malformed_meta_single_page_witness :
    getAllFromFirst (fun _ => ([] : List Nat)) [10, 20] (some MetaValue.nonObject) =
      Except.ok [10, 20] :=
  (malformed_meta_single_page Nat (fun _ => []) [10, 20]
    (some MetaValue.nonObject) (by decide)).1

/-- Counterexample for C8 as stated: `meta.pagination = {limit: 2, count: 4}`
(offset missing) is structurally invalid, yet the fetch does not treat it as
"no further pages" and terminate successfully — the pagination construction
throws a TypeError (`undefined.toString()` while setting the `page[offset]`
parameter), so the orchestration fails instead of resolving with the single
page. -/
theorem malformed_meta_counterexample :
    getAllFromFirst (fun _ => ([] : List Nat)) [10, 20]
        (some (MetaValue.obj (some (PagValue.obj ⟨none, some 2, some 4⟩)))) =
      Except.error JsError.typeError ∧
    getAllFromFirst (fun _ => ([] : List Nat)) [10, 20]
        (some (MetaValue.obj (some (PagValue.obj ⟨none, some 2, some 4⟩)))) ≠
      Except.ok [10, 20] := by
  refine ⟨rfl, ?_⟩
  intro h
  exact Except.noConfusion h

/-- Helper: against a consistent paginated server, the incremental rest-loop
starting at offset o < C delivers exactly the pages at offsets o, o + L,
o + 2L, …, provided it has enough fuel. -/
theorem incrementalRest_spec (α : Type) (L C : Nat) (srv : Nat → List α)
    (hL : 0 < L) (hsrv : ∀ o, o ≤ C → (srv o).length = min L (C - o)) :
    ∀ fuel o, o < C → C - o ≤ fuel * L →
      incrementalRest L C srv fuel o =
        (List.range ((C - o - 1) / L + 1)).map (fun i => srv (o + i * L)) := by
  intro fuel
  induction fuel with
  | zero =>
    intro o ho hf
    simp at hf
    omega
  | succ fuel ih =>
    intro o ho hf
    have hlen : (srv o).length = min L (C - o) := hsrv o (Nat.le_of_lt ho)
    by_cases hle : C - o ≤ L
    · have hlen' : (srv o).length = C - o := by
        rw [hlen, Nat.min_eq_right hle]
      have hoc : o + (srv o).length = C := by omega
      have hadv : (⟨o, L, C⟩ : DocumentPagination).advance (srv o).length none = none := by
        simp [DocumentPagination.advance, hoc]
      have hdiv : (C - o - 1) / L = 0 := Nat.div_eq_of_lt (by omega)
      simp [incrementalRest, hadv, hdiv, List.range_succ]
    · have hlen' : (srv o).length = L := by
        rw [hlen]
        exact Nat.min_eq_left (by omega)
      have hne : ¬(o + L = C) := by omega
      have hadv : (⟨o, L, C⟩ : DocumentPagination).advance (srv o).length none =
          some ⟨o + L, L, C⟩ := by
        simp [DocumentPagination.advance, hne, hlen', jsFalsyOr]
      obtain ⟨t, ht⟩ : ∃ t, fuel * L = t := ⟨_, rfl⟩
      have hsm : (fuel + 1) * L = t + L := by rw [Nat.succ_mul, ht]
      rw [hsm] at hf
      have hf' : C - (o + L) ≤ fuel * L := by
        rw [ht]
        omega
      have ho' : o + L < C := by omega
      simp only [incrementalRest, hadv]
      rw [ih (o + L) ho' hf']
      have hdiv : (C - o - 1) / L + 1 = ((C - (o + L) - 1) / L + 1) + 1 := by
        have hdd : C - o - 1 = (C - (o + L) - 1) + L := by omega
        rw [hdd, Nat.add_div_right _ hL]
      conv_rhs => rw [hdiv, List.range_succ_eq_map]
      simp only [List.map_cons, List.map_map]
      congr 1
      · simp
      · apply List.map_congr_left
        intro i _
        simp only [Function.comp, Nat.succ_eq_add_one]
        congr 1
        ring

/-- C3. Batch getAll and incremental getAllIncremental, run against the same
consistent paginated server (fixed page limit L and total count C reported in
every page's metadata, page data of length min L (C - o) at each requested
offset o), produce the same aggregated data: the batch result equals the
concatenation, in delivery order, of the per-page data arrays surfaced by
the incremental step notifications. -/
theorem batch_incremental_agree (α : Type) (L C : Nat) (srv : Nat → List α)
    (hL : 0 < L) (hsrv : ∀ o, o ≤ C → (srv o).length = min L (C - o)) :
    batchData L C srv = (incrementalSteps L C srv).flatten := by
  have h0 : (srv 0).length = min L C := by
    have := hsrv 0 (Nat.zero_le C)
    simpa using this
  by_cases hC : C = 0
  · subst hC
    have hz : (srv 0).length = 0 := by simpa using h0
    have hadv : (⟨0, L, 0⟩ : DocumentPagination).advance (srv 0).length none = none := by
      simp [DocumentPagination.advance, hz]
    simp [batchData, incrementalSteps, hadv]
  · by_cases hLC : C ≤ L
    · have hlen : (srv 0).length = C := by
        rw [h0, Nat.min_eq_right hLC]
      have hadv : (⟨0, L, C⟩ : DocumentPagination).advance (srv 0).length none = none := by
        simp [DocumentPagination.advance, hlen]
      have hdz : (C - (srv 0).length + L - 1) / L = 0 := by
        apply Nat.div_eq_of_lt
        omega
      have hpages : pages ⟨0, L, C⟩ (srv 0).length = [] := by
        simp [pages, hdz]
      simp [batchData, incrementalSteps, hadv, hpages]
    · have hLC' : L < C := Nat.lt_of_not_le hLC
      have hlen : (srv 0).length = L := by
        rw [h0, Nat.min_eq_left (Nat.le_of_lt hLC')]
      have hne : ¬(L = C) := by omega
      have hadv : (⟨0, L, C⟩ : DocumentPagination).advance (srv 0).length none =
          some ⟨0 + L, L, C⟩ := by
        simp [DocumentPagination.advance, hne, hlen, jsFalsyOr]
      have hfuel : C - (0 + L) ≤ (C + 1) * L := by
        calc C - (0 + L) ≤ C + 1 := by omega
        _ = (C + 1) * 1 := by ring
        _ ≤ (C + 1) * L := Nat.mul_le_mul_left _ hL
      have hrest := incrementalRest_spec α L C srv hL hsrv (C + 1) (0 + L) (by omega) hfuel
      have hzC : ¬((0 : Nat) = C) := by omega
      simp only [batchData, incrementalSteps]
      rw [if_neg hzC]
      simp only [hadv]
      rw [hrest, List.flatten_cons]
      congr 1
      have hcnt : (C - L + L - 1) / L = (C - (0 + L) - 1) / L + 1 := by
        have hexp : C - L + L - 1 = (C - (0 + L) - 1) + L := by omega
        rw [hexp, Nat.add_div_right _ hL]
      simp only [pages, List.map_map, hcnt, hlen]
      congr 1

/-- Witness for C3 at a concrete server: 5 items served in pages of 2. -/
theorem batch_incremental_agree_witness :
    batchData 2 5 (fun o => ((List.range 5).drop o).take 2) =
      (incrementalSteps 2 5 (fun o => ((List.range 5).drop o).take 2)).flatten :=
  batch_incremental_agree Nat 2 5 (fun o => ((List.range 5).drop o).take 2) (by decide)
    (by
      intro o _
      simp [List.length_take, List.length_drop])
